import Mathlib

/-!
Verification model of the release orchestrator implemented in `scripts/release.sh`
of the shipsheet repository.

The script is a sequential 12-step release pipeline with a persisted key-value
state file (`.release-state`, one `key:value` line per key), a lock file, an
idempotency/verification layer, a compensation-based rollback engine and a
dry-run overlay.  The model below embeds the script shallowly:

* the state file is a list of text lines (`none` when the file is absent);
  `save_state`/`get_state`/`is_step_done`/`mark_step_done` mirror the shell
  functions line by line (grep-by-key-prefix, `cut -d: -f2-`, comma-separated
  `completed_steps`, append-on-write);
* external reality (package manifest, git, npm, gh, the registry, command
  outcomes, the interactive confirmation) is a read-only `World` record: the
  script only ever observes it through the narrow queries modelled as fields,
  and every externally mutating command is recorded as an `Effect` in a trace
  rather than executed;
* each `step_*` function, the `run_step` dispatcher, `run_from_step`, `resume`,
  the rollback engine and the lock acquisition are translated control-flow
  branch by control-flow branch from the script; exits are modelled by an
  `Option Nat` exit code (`some c` = the process exited with code `c`).

Log output (other than its complete absence or presence where a claim needs
it) is not modelled; warnings that affect nothing observable are noted in the
doc comments of the functions that drop them.
-/

namespace Release

/-- Content of the persisted state file `.release-state` as its list of lines;
`none` models an absent file (the script distinguishes absence via `[ -f ]`). -/
abbrev StFile := Option (List String)

/-- Does a line of the state file start with `key` followed by a colon?  This is
the `grep "^$key:"` test of `get_state` and (negated) `save_state`; all keys the
script uses are plain identifiers, so the pattern is literal. -/
def line_matches_key (key line : String) : Bool :=
  (key.data ++ [':']).isPrefixOf line.data

/-- Characters after the first colon of a character list (helper for modelling
`cut -d: -f2-`). -/
def cut_rest_data : List Char → List Char
  | [] => []
  | c :: cs => if c = ':' then cs else cut_rest_data cs

/-- Behaviour of `cut -d: -f2-` on one line: everything after the first colon;
a line containing no delimiter is passed through unchanged. -/
def cut_fields (line : String) : String :=
  if ':' ∈ line.data then String.mk (cut_rest_data line.data) else line

/-- Join output lines the way `$(...)` command substitution captures them: lines
separated by a newline, with no trailing newline. -/
def joinLines : List String → String
  | [] => ""
  | [l] => l
  | l :: l' :: ls => l ++ "\n" ++ joinLines (l' :: ls)

/-- Split a character list at newline characters (how text appended by `echo`
is subsequently seen as file lines). -/
def split_nl : List Char → List (List Char)
  | [] => [[]]
  | c :: cs =>
    if c = '\n' then [] :: split_nl cs
    else
      match split_nl cs with
      | [] => [[c]]
      | l :: ls => (c :: l) :: ls

/-- Lines appended to the state file by `echo "$key:$value" >> "$STATE_FILE"`:
the text `key:value` split at any embedded newlines. -/
def echo_lines (s : String) : List String :=
  (split_nl s.data).map String.mk

/-- Model of `save_state`: when the file exists, drop every line whose key
prefix matches (`grep -v "^$key:" | mv`), then append `key:value` with `echo`. -/
def save_state (st : StFile) (key value : String) : StFile :=
  let lines :=
    match st with
    | some ls => ls.filter (fun l => !line_matches_key key l)
    | none => []
  some (lines ++ echo_lines (key ++ ":" ++ value))

/-- Model of `get_state`: `grep "^$key:" "$STATE_FILE" | cut -d: -f2-` captured
by command substitution; a missing file or no matching line yields `""`. -/
def get_state (st : StFile) (key : String) : String :=
  match st with
  | none => ""
  | some ls => joinLines ((ls.filter (fun l => line_matches_key key l)).map cut_fields)

/-- Model of `clear_state`: `rm -f "$STATE_FILE"`. -/
def clear_state (_ : StFile) : StFile := none

/-- Model of `has_state`: `[ -f "$STATE_FILE" ]`. -/
def has_state (st : StFile) : Bool := st.isSome

/-- Model of `is_step_done`: the bash pattern test
`[[ ",$done_steps," == *",$step,"* ]]` — a comma-delimited substring check on
the `completed_steps` value. -/
def is_step_done (st : StFile) (step : String) : Bool :=
  let done_steps := get_state st "completed_steps"
  decide ((("," ++ step ++ ",").data) <:+: (("," ++ done_steps ++ ",").data))

/-- Model of `mark_step_done`: append the step to `completed_steps` (with a
leading comma unless the record was empty) and overwrite `last_step`.  The
source appends unconditionally — there is no membership check. -/
def mark_step_done (st : StFile) (step : String) : StFile :=
  let done_steps := get_state st "completed_steps"
  let st1 :=
    if done_steps = "" then save_state st "completed_steps" step
    else save_state st "completed_steps" (done_steps ++ "," ++ step)
  save_state st1 "last_step" step

/-- The fixed step order of the pipeline (the `STEPS` array). -/
def STEPS : List String :=
  ["preflight", "init", "show_commits", "create_changeset", "edit_changeset",
   "build", "version", "git_commit", "npm_publish", "git_push", "gh_release",
   "cleanup"]

/-- The search loop of `get_step_index`: walk the list with a running index,
returning the index of the first match and `-1` when none matches. -/
def find_index_from (l : List String) (step : String) (acc : Int) : Int :=
  match l with
  | [] => -1
  | s :: rest => if s = step then acc else find_index_from rest step (acc + 1)

/-- Model of `get_step_index`: index of the first occurrence in `STEPS`, `-1`
when the name is not registered. -/
def get_step_index (step : String) : Int :=
  find_index_from STEPS step 0

/-- The seven semantic value keys of the persisted `ReleaseState`
(`completed_steps` and `last_step` are the bookkeeping keys kept alongside). -/
def semantic_keys : List String :=
  ["original_commit", "last_tag", "no_previous_tag", "changeset_file",
   "bump_type", "version", "tag"]

/-- Does a commit subject match the breaking-change pattern of
`detect_bump_type` (`grep -qiE "^(BREAKING CHANGE|.*!:)"`): case-insensitively
starting with `BREAKING CHANGE`, or containing `!:` anywhere? -/
def matches_breaking (s : String) : Bool :=
  ("breaking change".data.isPrefixOf (s.data.map Char.toLower)) ||
  decide (("!:".data) <:+: s.data)

/-- Does a commit subject match the feature pattern of `detect_bump_type`
(`grep -qiE "^(feat|feature|📦 NEW)"`): case-insensitively starting with
`feat`, `feature` or `📦 NEW`? -/
def matches_feature (s : String) : Bool :=
  ("feat".data.isPrefixOf (s.data.map Char.toLower)) ||
  ("feature".data.isPrefixOf (s.data.map Char.toLower)) ||
  ("📦 new".data.isPrefixOf (s.data.map Char.toLower))

/-- Model of `detect_bump_type` over the list of commit subjects it greps (the
subjects since the last tag, or the last 20 subjects when no tag exists — the
`git log` retrieval itself is external and supplies the list). -/
def detect_bump_type (commits : List String) : String :=
  if commits.any matches_breaking then "major"
  else if commits.any matches_feature then "minor"
  else "patch"

/-- Run configuration assembled from the parsed flags and `.releaserc`
(`DRY_RUN`, `YES`, `EDIT_CHANGELOG`, `BUMP_TYPE`). -/
structure Config where
  dryRun : Bool
  yes : Bool
  editChangelog : Bool
  bumpType : String

/-- Read-only snapshot of external reality as the script observes it, plus the
outcome oracles for the external commands it may invoke.  Externally mutating
commands are recorded in the effect trace instead of rewriting this record. -/
structure World where
  pkgName : String
  pkgVersion : String
  repoUrl : String
  packageJsonExists : Bool
  npmLoggedIn : Bool
  ghLoggedIn : Bool
  uncommitted : Bool
  commitCount : Nat
  currentCommit : String
  lastTag : String
  detectSubjects : List String
  files : List String
  distExists : Bool
  changelog : Option String
  headCommitMsg : String
  npmPublished : List (String × String)
  lsRemoteTags : String
  ghReleases : List String
  randomName : String
  userConfirms : Bool
  buildOk : Bool
  changesetVersionOk : Bool
  gitCommitOk : Bool
  npmPublishOk : Bool
  gitPushOk : Bool
  ghReleaseOk : Bool

/-- Observable actions of the script on the world outside the state file: the
external commands it runs and the files it writes or removes.  `ranStep n`
instruments each `run_step` dispatch (one entry per step invocation). -/
inductive Effect where
  | ranStep (step : String)
  | mkChangesetFile (path : String)
  | editorOpen (path : String)
  | buildCmd
  | changesetVersionCmd
  | gitCommitCmd (msg : String)
  | npmPublishCmd
  | gitPushCmd
  | ghReleaseCreateCmd (tag : String)
  | ghReleaseDeleteCmd (tag : String)
  | deleteRemoteTagCmd (tag : String)
  | gitResetHardCmd (commit : String)
  | rmFile (path : String)
  | clearLogFile
deriving DecidableEq

/-- Mutable run state threaded through the pipeline: the persisted state file
and the trace of effects performed so far. -/
structure S where
  st : StFile
  trace : List Effect
deriving DecidableEq

/-- Projection of a trace to the sequence of step names dispatched through
`run_step`. -/
def ran_trace (tr : List Effect) : List String :=
  tr.filterMap fun e =>
    match e with
    | .ranStep n => some n
    | _ => none

/-- Model of `verify_preflight` (always succeeds). -/
def verify_preflight (_ : World) (_ : StFile) : Bool := true

/-- Model of `verify_init`: a non-empty `original_commit` is recorded. -/
def verify_init (_ : World) (st : StFile) : Bool :=
  !(get_state st "original_commit" = "")

/-- Model of `verify_show_commits`: `last_tag` recorded or `no_previous_tag`
set to `true`. -/
def verify_show_commits (_ : World) (st : StFile) : Bool :=
  !(get_state st "last_tag" = "") || (get_state st "no_previous_tag" = "true")

/-- Model of `verify_create_changeset`: a changeset file is recorded and still
exists on disk. -/
def verify_create_changeset (w : World) (st : StFile) : Bool :=
  let f := get_state st "changeset_file"
  !(f = "") && w.files.contains f

/-- Model of `verify_edit_changeset` (always succeeds). -/
def verify_edit_changeset (_ : World) (_ : StFile) : Bool := true

/-- Model of `verify_build`: the `dist` directory exists. -/
def verify_build (w : World) (_ : StFile) : Bool := w.distExists

/-- Model of `verify_version`: `CHANGELOG.md` exists and contains the current
package version (the `grep -q "$(get_pkg_version)"` is modelled as a substring
test on the changelog contents). -/
def verify_version (w : World) (_ : StFile) : Bool :=
  match w.changelog with
  | some c => decide ((w.pkgVersion.data) <:+: c.data)
  | none => false

/-- Model of `verify_git_commit`: a version is recorded and the HEAD commit
message contains the release marker for it. -/
def verify_git_commit (w : World) (st : StFile) : Bool :=
  let v := get_state st "version"
  !(v = "") && decide ((("RELEASE: v" ++ v).data) <:+: w.headCommitMsg.data)

/-- Model of `verify_npm_publish`: the registry reports the recorded version of
the package (`npm view "$p@$v" version | grep -q "$v"`). -/
def verify_npm_publish (w : World) (st : StFile) : Bool :=
  let v := get_state st "version"
  w.npmPublished.contains (w.pkgName, v)

/-- Model of `verify_git_push`: `git ls-remote --tags origin` lists
`refs/tags/` followed by the recorded tag (a substring test, as with grep). -/
def verify_git_push (w : World) (st : StFile) : Bool :=
  let t := get_state st "tag"
  decide ((("refs/tags/" ++ t).data) <:+: w.lsRemoteTags.data)

/-- Model of `verify_gh_release`: `gh release view "$t"` succeeds, meaning a
release object exists for the recorded tag. -/
def verify_gh_release (w : World) (st : StFile) : Bool :=
  w.ghReleases.contains (get_state st "tag")

/-- Model of `verify_cleanup`: the state file is gone (`! has_state`). -/
def verify_cleanup (_ : World) (st : StFile) : Bool := !(has_state st)

/-- Verification predicate of a step by name (dispatch table used to state
claims about the idempotency layer; arms are the source `verify_*`
functions and an unregistered name has no predicate, i.e. `false`). -/
def step_verify (step : String) (w : World) (st : StFile) : Bool :=
  if step = "preflight" then verify_preflight w st
  else if step = "init" then verify_init w st
  else if step = "show_commits" then verify_show_commits w st
  else if step = "create_changeset" then verify_create_changeset w st
  else if step = "edit_changeset" then verify_edit_changeset w st
  else if step = "build" then verify_build w st
  else if step = "version" then verify_version w st
  else if step = "git_commit" then verify_git_commit w st
  else if step = "npm_publish" then verify_npm_publish w st
  else if step = "git_push" then verify_git_push w st
  else if step = "gh_release" then verify_gh_release w st
  else if step = "cleanup" then verify_cleanup w st
  else false

/-- Model of `step_preflight`.  When its completion flag is set it skips
immediately (log only — it checks no verification predicate).  Otherwise it
runs the checks; a fatal condition (missing manifest, unreadable package name,
no npm login, dirty working tree, nothing to release) makes the script exit 1
before touching the state (either via the error count or via `set -e` firing
on the `((errors++))` increment — both exit 1 with no state change).  The
login/branch/changeset-directory warnings have no observable consequence and
are not modelled. -/
def step_preflight (_ : Config) (w : World) (s : S) : S × Option Nat :=
  if is_step_done s.st "preflight" then (s, none)
  else
    let errors :=
      (if w.packageJsonExists then 0 else 1) +
      (if w.pkgName = "" then 1 else 0) +
      (if w.npmLoggedIn then 0 else 1) +
      (if w.uncommitted then 1 else 0) +
      (if w.commitCount = 0 then 1 else 0)
    if errors > 0 then (s, some 1)
    else ({ s with st := mark_step_done s.st "preflight" }, none)

/-- Model of `step_init`: records `original_commit` and the effective bump type
(the detected one when the operator asked for `auto`, the configured one
otherwise), then marks itself done. -/
def step_init (cfg : Config) (w : World) (s : S) : S × Option Nat :=
  if is_step_done s.st "init" && verify_init w s.st then (s, none)
  else
    let detected := detect_bump_type w.detectSubjects
    let bt := if cfg.bumpType = "auto" then detected else cfg.bumpType
    let st1 := save_state s.st "original_commit" w.currentCommit
    let st2 := save_state st1 "bump_type" bt
    ({ s with st := mark_step_done st2 "init" }, none)

/-- Model of `step_show_commits`: displays the commits (log only), records
either `last_tag` or `no_previous_tag`, and marks itself done. -/
def step_show_commits (_ : Config) (w : World) (s : S) : S × Option Nat :=
  if is_step_done s.st "show_commits" && verify_show_commits w s.st then (s, none)
  else
    let st1 :=
      if !(w.lastTag = "") then save_state s.st "last_tag" w.lastTag
      else save_state s.st "no_previous_tag" "true"
    ({ s with st := mark_step_done st1 "show_commits" }, none)

/-- Model of `step_create_changeset`: computes the changeset path from a random
name; under dry-run only the state is written, otherwise the file is written
too (its contents — package name, bump type, commit list — are summarized in
the `mkChangesetFile` effect). -/
def step_create_changeset (cfg : Config) (w : World) (s : S) : S × Option Nat :=
  if is_step_done s.st "create_changeset" && verify_create_changeset w s.st then (s, none)
  else
    let filepath := ".changeset/" ++ w.randomName ++ ".md"
    if cfg.dryRun then
      let st1 := save_state s.st "changeset_file" filepath
      ({ s with st := mark_step_done st1 "create_changeset" }, none)
    else
      let st1 := save_state s.st "changeset_file" filepath
      ({ st := mark_step_done st1 "create_changeset",
         trace := s.trace ++ [Effect.mkChangesetFile filepath] }, none)

/-- Model of `step_edit_changeset`: skips when done; otherwise marks done after
either doing nothing (`--no-edit`), logging (dry-run) or opening an editor on
the recorded changeset file (the editor-selection fallbacks collapse into one
`editorOpen` effect). -/
def step_edit_changeset (cfg : Config) (_ : World) (s : S) : S × Option Nat :=
  if is_step_done s.st "edit_changeset" then (s, none)
  else if !cfg.editChangelog then
    ({ s with st := mark_step_done s.st "edit_changeset" }, none)
  else
    let filepath := get_state s.st "changeset_file"
    if cfg.dryRun then ({ s with st := mark_step_done s.st "edit_changeset" }, none)
    else
      ({ st := mark_step_done s.st "edit_changeset",
         trace := s.trace ++ [Effect.editorOpen filepath] }, none)

/-- Model of `step_build`: runs `pnpm build` (dry-run: log only); a build
failure exits 1 via `set -e` with the state untouched. -/
def step_build (cfg : Config) (w : World) (s : S) : S × Option Nat :=
  if is_step_done s.st "build" && verify_build w s.st then (s, none)
  else if cfg.dryRun then ({ s with st := mark_step_done s.st "build" }, none)
  else
    let s1 : S := { s with trace := s.trace ++ [Effect.buildCmd] }
    if w.buildOk then ({ s1 with st := mark_step_done s1.st "build" }, none)
    else (s1, some 1)

/-- Model of `step_version`.  Note the skip branch: it is not log-only — it
re-saves the `version` and `tag` keys from the current package manifest before
returning.  Under dry-run it records the placeholder `X.X.X`; otherwise it runs
`pnpm changeset version` and records the resulting manifest version (the
manifest read is the `pkgVersion` oracle). -/
def step_version (cfg : Config) (w : World) (s : S) : S × Option Nat :=
  if is_step_done s.st "version" && verify_version w s.st then
    let st1 := save_state s.st "version" w.pkgVersion
    let st2 := save_state st1 "tag" ("v" ++ w.pkgVersion)
    ({ s with st := st2 }, none)
  else if cfg.dryRun then
    let st1 := save_state s.st "version" "X.X.X"
    let st2 := save_state st1 "tag" "vX.X.X"
    ({ s with st := mark_step_done st2 "version" }, none)
  else
    let s1 : S := { s with trace := s.trace ++ [Effect.changesetVersionCmd] }
    if w.changesetVersionOk then
      let st1 := save_state s1.st "version" w.pkgVersion
      let st2 := save_state st1 "tag" ("v" ++ w.pkgVersion)
      ({ s1 with st := mark_step_done st2 "version" }, none)
    else (s1, some 1)

/-- Model of `step_git_commit`: commits everything with the release marker
message (`git add -A; git commit -m "🚀 RELEASE: v$version"`, merged into one
effect); a failure exits 1. -/
def step_git_commit (cfg : Config) (w : World) (s : S) : S × Option Nat :=
  if is_step_done s.st "git_commit" && verify_git_commit w s.st then (s, none)
  else
    let version := get_state s.st "version"
    if cfg.dryRun then ({ s with st := mark_step_done s.st "git_commit" }, none)
    else
      let s1 : S := { s with trace := s.trace ++ [Effect.gitCommitCmd ("🚀 RELEASE: v" ++ version)] }
      if w.gitCommitOk then ({ s1 with st := mark_step_done s1.st "git_commit" }, none)
      else (s1, some 1)

/-- Model of `step_npm_publish`: without `--yes` and outside dry-run it prompts
and aborts with exit 1 when the operator does not confirm; then publishes
(dry-run: log only); a publish failure exits 1. -/
def step_npm_publish (cfg : Config) (w : World) (s : S) : S × Option Nat :=
  if is_step_done s.st "npm_publish" && verify_npm_publish w s.st then (s, none)
  else if !cfg.yes && !cfg.dryRun && !w.userConfirms then (s, some 1)
  else if cfg.dryRun then ({ s with st := mark_step_done s.st "npm_publish" }, none)
  else
    let s1 : S := { s with trace := s.trace ++ [Effect.npmPublishCmd] }
    if w.npmPublishOk then ({ s1 with st := mark_step_done s1.st "npm_publish" }, none)
    else (s1, some 1)

/-- Model of `step_git_push`: `git push --follow-tags` (dry-run: log only); a
push failure exits 1. -/
def step_git_push (cfg : Config) (w : World) (s : S) : S × Option Nat :=
  if is_step_done s.st "git_push" && verify_git_push w s.st then (s, none)
  else if cfg.dryRun then ({ s with st := mark_step_done s.st "git_push" }, none)
  else
    let s1 : S := { s with trace := s.trace ++ [Effect.gitPushCmd] }
    if w.gitPushOk then ({ s1 with st := mark_step_done s1.st "git_push" }, none)
    else (s1, some 1)

/-- Model of `step_gh_release`: without a repository URL, or without a gh
login, it only warns and marks itself done; under dry-run it logs; otherwise it
creates the release for tag `v` ++ recorded version (creation and the follow-up
notes edit merged into one effect); a failure exits 1. -/
def step_gh_release (cfg : Config) (w : World) (s : S) : S × Option Nat :=
  if is_step_done s.st "gh_release" && verify_gh_release w s.st then (s, none)
  else
    let version := get_state s.st "version"
    let tag := "v" ++ version
    if w.repoUrl = "" then ({ s with st := mark_step_done s.st "gh_release" }, none)
    else if !w.ghLoggedIn then ({ s with st := mark_step_done s.st "gh_release" }, none)
    else if cfg.dryRun then ({ s with st := mark_step_done s.st "gh_release" }, none)
    else
      let s1 : S := { s with trace := s.trace ++ [Effect.ghReleaseCreateCmd tag] }
      if w.ghReleaseOk then ({ s1 with st := mark_step_done s1.st "gh_release" }, none)
      else (s1, some 1)

/-- Model of `step_cleanup`: under dry-run it logs and leaves everything as it
is (it is also never marked done); otherwise it deletes the state file and the
log file. -/
def step_cleanup (cfg : Config) (_ : World) (s : S) : S × Option Nat :=
  if cfg.dryRun then (s, none)
  else ({ st := clear_state s.st, trace := s.trace ++ [Effect.clearLogFile] }, none)

/-- Model of `run_step`: dispatch on the step name (the shell `case`); an
unknown name logs an error and exits 1.  Every dispatch is instrumented with a
`ranStep` trace entry. -/
def run_step (cfg : Config) (w : World) (step : String) (s : S) : S × Option Nat :=
  let s1 : S := { s with trace := s.trace ++ [Effect.ranStep step] }
  if step = "preflight" then step_preflight cfg w s1
  else if step = "init" then step_init cfg w s1
  else if step = "show_commits" then step_show_commits cfg w s1
  else if step = "create_changeset" then step_create_changeset cfg w s1
  else if step = "edit_changeset" then step_edit_changeset cfg w s1
  else if step = "build" then step_build cfg w s1
  else if step = "version" then step_version cfg w s1
  else if step = "git_commit" then step_git_commit cfg w s1
  else if step = "npm_publish" then step_npm_publish cfg w s1
  else if step = "git_push" then step_git_push cfg w s1
  else if step = "gh_release" then step_gh_release cfg w s1
  else if step = "cleanup" then step_cleanup cfg w s1
  else (s1, some 1)

/-- The `for` loop of `run_from_step`: run the listed steps in order, stopping
when one makes the process exit. -/
def run_steps (cfg : Config) (w : World) : List String → S → S × Option Nat
  | [], s => (s, none)
  | step :: rest, s =>
    match run_step cfg w step s with
    | (s1, some code) => (s1, some code)
    | (s1, none) => run_steps cfg w rest s1

/-- Model of `run_from_step`: an unregistered start step exits 1 before any
step runs; otherwise the steps from the start index to the end are run in
order. -/
def run_from_step (cfg : Config) (w : World) (start_step : String) (s : S) : S × Option Nat :=
  let start_index := get_step_index start_step
  if start_index = -1 then (s, some 1)
  else run_steps cfg w (STEPS.drop start_index.toNat) s

/-- Model of `resume`: with no state file, start from `preflight`; otherwise
compute the index after `last_step`; at or past the end of the pipeline the
release is already complete (clear state, report success, run nothing), else
run from the step at that index. -/
def resume (cfg : Config) (w : World) (s : S) : S × Option Nat :=
  if !has_state s.st then run_from_step cfg w "preflight" s
  else
    let last_step := get_state s.st "last_step"
    let last_index := get_step_index last_step
    let next_index := last_index + 1
    if (STEPS.length : Int) ≤ next_index then ({ s with st := clear_state s.st }, none)
    else run_from_step cfg w (STEPS.getD next_index.toNat "") s

/-- Model of `rollback_git_commit`: when an `original_commit` is recorded, warn
and (outside dry-run) hard-reset to it. -/
def rollback_git_commit (cfg : Config) (_ : World) (s : S) : S :=
  let original_commit := get_state s.st "original_commit"
  if original_commit = "" then s
  else if cfg.dryRun then s
  else { s with trace := s.trace ++ [Effect.gitResetHardCmd original_commit] }

/-- Model of `rollback_changeset`: when a changeset file is recorded and still
exists, warn and (outside dry-run) remove it. -/
def rollback_changeset (cfg : Config) (w : World) (s : S) : S :=
  let changeset_file := get_state s.st "changeset_file"
  if !(changeset_file = "") && w.files.contains changeset_file then
    if cfg.dryRun then s
    else { s with trace := s.trace ++ [Effect.rmFile changeset_file] }
  else s

/-- Model of `rollback_remote_tag`: when a tag is recorded, warn and (outside
dry-run) delete it from the remote (best-effort in the source — a failure is
ignored). -/
def rollback_remote_tag (cfg : Config) (_ : World) (s : S) : S :=
  let tag := get_state s.st "tag"
  if tag = "" then s
  else if cfg.dryRun then s
  else { s with trace := s.trace ++ [Effect.deleteRemoteTagCmd tag] }

/-- Model of `rollback_gh_release`: when a tag is recorded, warn and (outside
dry-run) delete the GitHub release (best-effort). -/
def rollback_gh_release (cfg : Config) (_ : World) (s : S) : S :=
  let tag := get_state s.st "tag"
  if tag = "" then s
  else if cfg.dryRun then s
  else { s with trace := s.trace ++ [Effect.ghReleaseDeleteCmd tag] }

/-- The `npm_publish` arm of rollback only prints the manual unpublish
instruction — it performs nothing. -/
def npm_unpublish_note (_ : Config) (_ : World) (s : S) : S := s

/-- Model of `rollback`: dispatch a fixed compensation chain on `last_step`
(the shell `case`, each arm calling the compensation functions in
newest-effect-first order), then clear the state unless running under
dry-run. -/
def rollback (cfg : Config) (w : World) (s : S) : S × Option Nat :=
  let last_step := get_state s.st "last_step"
  let s1 :=
    if last_step = "gh_release" then
      rollback_git_commit cfg w (rollback_remote_tag cfg w (rollback_gh_release cfg w s))
    else if last_step = "git_push" then
      rollback_git_commit cfg w (rollback_remote_tag cfg w s)
    else if last_step = "npm_publish" then
      rollback_git_commit cfg w (npm_unpublish_note cfg w s)
    else if last_step = "git_commit" ∨ last_step = "version" then
      rollback_git_commit cfg w s
    else if last_step = "create_changeset" ∨ last_step = "edit_changeset" then
      rollback_changeset cfg w s
    else s
  (if cfg.dryRun then s1 else { s1 with st := clear_state s1.st }, none)

/-- The five compensation actions of the rollback engine, named after the
source functions they stand for. -/
inductive Comp where
  | gh_release
  | remote_tag
  | git_commit
  | changeset
  | npm_manual
deriving DecidableEq

/-- The compensation chain `rollback` dispatches for a given `last_step`
(spec-level reading of the shell `case` arms, in execution order). -/
def rollback_comps (last_step : String) : List Comp :=
  if last_step = "gh_release" then [Comp.gh_release, Comp.remote_tag, Comp.git_commit]
  else if last_step = "git_push" then [Comp.remote_tag, Comp.git_commit]
  else if last_step = "npm_publish" then [Comp.npm_manual, Comp.git_commit]
  else if last_step = "git_commit" ∨ last_step = "version" then [Comp.git_commit]
  else if last_step = "create_changeset" ∨ last_step = "edit_changeset" then [Comp.changeset]
  else []

/-- Run one compensation action (dispatch to the source compensation
functions). -/
def run_comp (cfg : Config) (w : World) (s : S) : Comp → S
  | Comp.gh_release => rollback_gh_release cfg w s
  | Comp.remote_tag => rollback_remote_tag cfg w s
  | Comp.git_commit => rollback_git_commit cfg w s
  | Comp.changeset => rollback_changeset cfg w s
  | Comp.npm_manual => npm_unpublish_note cfg w s

/-- Run a compensation chain in order. -/
def apply_comps (cfg : Config) (w : World) (cs : List Comp) (s : S) : S :=
  cs.foldl (fun acc c => run_comp cfg w acc c) s

/-- The pipeline index of the earliest step whose effect a compensation
reverses: the release object for `gh_release`, the pushed tag for `git_push`,
the hard reset covers everything from `version` on, the changeset file exists
from `create_changeset` on, and the manual note addresses `npm_publish`. -/
def comp_step_index : Comp → Int
  | Comp.gh_release => get_step_index "gh_release"
  | Comp.remote_tag => get_step_index "git_push"
  | Comp.git_commit => get_step_index "version"
  | Comp.changeset => get_step_index "create_changeset"
  | Comp.npm_manual => get_step_index "npm_publish"

/-- Result of `acquire_lock`: acquired (with the pid written to the lock file
and whether a stale lock was reclaimed with a warning), or refused because a
live owner holds it (the script exits 1). -/
inductive LockResult where
  | acquired (pid : String) (reclaimedStale : Bool)
  | lockHeld (owner : String)
deriving DecidableEq

/-- Model of `acquire_lock`: when the lock file exists, read the owner pid; a
live owner (`kill -0` succeeds) means exit 1; a dead owner means the stale lock
is removed with a warning.  On success the current pid is written. -/
def acquire_lock (lock : Option String) (alivePids : List String) (selfPid : String) : LockResult :=
  match lock with
  | some owner => if owner ∈ alivePids then LockResult.lockHeld owner else LockResult.acquired selfPid true
  | none => LockResult.acquired selfPid false

/-- The default driver action: acquire the lock, then resume; a held lock makes
the process exit 1 before anything of the state store is read or written. -/
def main_resume (cfg : Config) (w : World) (lock : Option String) (alivePids : List String)
    (selfPid : String) (s : S) : S × Option Nat :=
  match acquire_lock lock alivePids selfPid with
  | LockResult.lockHeld _ => (s, some 1)
  | LockResult.acquired _ _ => resume cfg w s

/-- Fixture: an external world in a releasable condition (clean tree, logged
in, one unreleased commit, no previous tag, no repository URL, every external
command succeeding); used to instantiate theorems on concrete runs. -/
def sampleWorld : World where
  pkgName := "shipsheet"
  pkgVersion := "1.0.0"
  repoUrl := ""
  packageJsonExists := true
  npmLoggedIn := true
  ghLoggedIn := false
  uncommitted := false
  commitCount := 1
  currentCommit := "abc123"
  lastTag := ""
  detectSubjects := ["feat: add export"]
  files := []
  distExists := false
  changelog := some "## 1.0.0"
  headCommitMsg := ""
  npmPublished := []
  lsRemoteTags := ""
  ghReleases := []
  randomName := "r1"
  userConfirms := true
  buildOk := true
  changesetVersionOk := true
  gitCommitOk := true
  npmPublishOk := true
  gitPushOk := true
  ghReleaseOk := true

/-- Fixture: a dry-run configuration. -/
def sampleDry : Config where
  dryRun := true
  yes := false
  editChangelog := true
  bumpType := "patch"

/-- Fixture: a real-run configuration with confirmations pre-approved. -/
def sampleReal : Config where
  dryRun := false
  yes := true
  editChangelog := true
  bumpType := "patch"

/-! ### State-store lemmas -/

theorem split_nl_no_newline {l : List Char} (h : '\n' ∉ l) : split_nl l = [l] := by
  induction l with
  | nil => rfl
  | cons c cs ih =>
    have hc : ¬ c = '\n' := fun e => h (e ▸ List.mem_cons_self c cs)
    have hcs : '\n' ∉ cs := fun m => h (List.mem_cons_of_mem _ m)
    simp only [split_nl, hc, if_false, ih hcs]

theorem data_key_colon_value (k v : String) :
    (k ++ ":" ++ v).data = k.data ++ ':' :: v.data := by
  rw [String.data_append, String.data_append, List.append_assoc]
  rfl

theorem echo_lines_single (k v : String) (hknl : '\n' ∉ k.data) (hv : '\n' ∉ v.data) :
    echo_lines (k ++ ":" ++ v) = [k ++ ":" ++ v] := by
  have hno : '\n' ∉ (k ++ ":" ++ v).data := by
    rw [data_key_colon_value]
    intro hmem
    rcases List.mem_append.mp hmem with h1 | h2
    · exact hknl h1
    · rcases List.mem_cons.mp h2 with h3 | h4
      · exact absurd h3.symm (by decide)
      · exact hv h4
  unfold echo_lines
  rw [split_nl_no_newline hno]
  simp
  exact String.ext (by rw [data_key_colon_value])

theorem cut_rest_data_append {a : List Char} (w : List Char) (ha : ':' ∉ a) :
    cut_rest_data (a ++ ':' :: w) = w := by
  induction a with
  | nil => simp [cut_rest_data]
  | cons c cs ih =>
    have hc : ¬ c = ':' := fun e => ha (e ▸ List.mem_cons_self c cs)
    have hcs : ':' ∉ cs := fun m => ha (List.mem_cons_of_mem _ m)
    simp only [List.cons_append, cut_rest_data, hc, if_false]
    exact ih hcs

theorem cut_fields_key (k v : String) (hk : ':' ∉ k.data) :
    cut_fields (k ++ ":" ++ v) = v := by
  have hmem : ':' ∈ (k ++ ":" ++ v).data := by
    rw [data_key_colon_value]; exact List.mem_append.mpr (Or.inr (List.mem_cons_self _ _))
  unfold cut_fields
  rw [if_pos hmem, data_key_colon_value, cut_rest_data_append _ hk]

theorem line_matches_key_self (k v : String) :
    line_matches_key k (k ++ ":" ++ v) = true := by
  unfold line_matches_key
  rw [data_key_colon_value]
  exact List.isPrefixOf_iff_prefix.mpr ⟨v.data, by simp⟩

theorem no_cross_key_match {a b : List Char} (w : List Char) (ha : ':' ∉ a) (hb : ':' ∉ b)
    (hne : ¬ a = b) : ¬ (a ++ [':']) <+: (b ++ ':' :: w) := by
  intro h
  have hbw : b ++ ':' :: w = (b ++ [':']) ++ w := by simp
  have hb' : (b ++ [':']) <+: (b ++ ':' :: w) := by
    rw [hbw]; exact List.prefix_append _ _
  rcases Nat.lt_trichotomy a.length b.length with hlt | heq | hgt
  · have hble : b <+: (b ++ ':' :: w) := ⟨':' :: w, rfl⟩
    have hpre : (a ++ [':']) <+: b :=
      List.prefix_of_prefix_length_le h hble (by simp; omega)
    exact hb (hpre.subset (List.mem_append.mpr (Or.inr (List.mem_cons_self _ _))))
  · have hpre : (a ++ [':']) <+: (b ++ [':']) :=
      List.prefix_of_prefix_length_le h hb' (by simp [heq])
    have heq2 := hpre.eq_of_length (by simp [heq])
    exact hne (by simpa using heq2)
  · have haT : a <+: (b ++ ':' :: w) := (List.prefix_append a [':']).trans h
    have hpre : (b ++ [':']) <+: a :=
      List.prefix_of_prefix_length_le hb' haT (by simp; omega)
    exact ha (hpre.subset (List.mem_append.mpr (Or.inr (List.mem_cons_self _ _))))

theorem line_matches_key_other (k k' v : String) (hk : ':' ∉ k.data) (hk' : ':' ∉ k'.data)
    (hne : ¬ k' = k) : line_matches_key k' (k ++ ":" ++ v) = false := by
  unfold line_matches_key
  rw [data_key_colon_value]
  rw [Bool.eq_false_iff]
  intro habs
  have hdata : ¬ k'.data = k.data := fun e => hne (String.ext e)
  exact no_cross_key_match v.data hk' hk hdata (List.isPrefixOf_iff_prefix.mp habs)

theorem matches_key_unique {k k' l : String} (hk : ':' ∉ k.data) (hk' : ':' ∉ k'.data)
    (h1 : line_matches_key k l = true) (h2 : line_matches_key k' l = true) : k = k' := by
  by_contra hne
  have p1 : (k.data ++ [':']) <+: l.data :=
    List.isPrefixOf_iff_prefix.mp h1
  have p2 : (k'.data ++ [':']) <+: l.data :=
    List.isPrefixOf_iff_prefix.mp h2
  obtain ⟨t, ht⟩ := p2
  have hl : l.data = k'.data ++ ':' :: t := by rw [← ht]; simp
  rw [hl] at p1
  have hdata : ¬ k.data = k'.data := fun e => hne (String.ext e)
  exact no_cross_key_match t hk hk' hdata p1

theorem get_save_same (st : StFile) (k v : String) (hk : ':' ∉ k.data)
    (hknl : '\n' ∉ k.data) (hv : '\n' ∉ v.data) :
    get_state (save_state st k v) k = v := by
  have hecho := echo_lines_single k v hknl hv
  have hfilter : ∀ ls : List String,
      (ls.filter (fun l => !line_matches_key k l)).filter (fun l => line_matches_key k l) = [] := by
    intro ls
    rw [List.filter_filter]
    have : ∀ l : String, (line_matches_key k l && !line_matches_key k l) = false := by
      intro l; cases line_matches_key k l <;> rfl
    rw [List.filter_congr fun l _ => this l]
    exact List.filter_false _
  cases st with
  | none =>
    simp only [save_state, get_state, hecho]
    simp [line_matches_key_self, cut_fields_key k v hk, joinLines]
  | some ls =>
    simp only [save_state, get_state, hecho]
    rw [List.filter_append, hfilter ls]
    simp [line_matches_key_self, cut_fields_key k v hk, joinLines]

theorem get_save_other (st : StFile) (k v k' : String) (hk : ':' ∉ k.data)
    (hk' : ':' ∉ k'.data) (hknl : '\n' ∉ k.data) (hv : '\n' ∉ v.data)
    (hne : ¬ k' = k) :
    get_state (save_state st k v) k' = get_state st k' := by
  have hecho := echo_lines_single k v hknl hv
  have hL : line_matches_key k' (k ++ ":" ++ v) = false :=
    line_matches_key_other k k' v hk hk' hne
  cases st with
  | none =>
    simp only [save_state, get_state, hecho]
    simp [hL, joinLines]
  | some ls =>
    simp only [save_state, get_state, hecho]
    rw [List.filter_append]
    have hfilter :
        (ls.filter (fun l => !line_matches_key k l)).filter (fun l => line_matches_key k' l)
          = ls.filter (fun l => line_matches_key k' l) := by
      rw [List.filter_filter]
      apply List.filter_congr
      intro l _
      cases hcase : line_matches_key k' l with
      | false => simp [hcase]
      | true =>
        have : line_matches_key k l = false := by
          rw [Bool.eq_false_iff]
          intro habs
          exact hne (matches_key_unique hk' hk hcase habs)
        simp [hcase, this]
    rw [hfilter]
    simp [hL]

/-! ### Pipeline dispatch and trace lemmas -/

theorem ran_trace_append (a b : List Effect) :
    ran_trace (a ++ b) = ran_trace a ++ ran_trace b :=
  List.filterMap_append a b _

theorem step_preflight_ran (cfg : Config) (w : World) (s : S) :
    ran_trace ((step_preflight cfg w s).1.trace) = ran_trace s.trace := by
  unfold step_preflight
  split
  · simp
  · dsimp only
    split_ifs <;> simp

theorem step_init_ran (cfg : Config) (w : World) (s : S) :
    ran_trace ((step_init cfg w s).1.trace) = ran_trace s.trace := by
  unfold step_init
  split_ifs <;> simp

theorem step_show_commits_ran (cfg : Config) (w : World) (s : S) :
    ran_trace ((step_show_commits cfg w s).1.trace) = ran_trace s.trace := by
  unfold step_show_commits
  split_ifs <;> simp

theorem step_create_changeset_ran (cfg : Config) (w : World) (s : S) :
    ran_trace ((step_create_changeset cfg w s).1.trace) = ran_trace s.trace := by
  unfold step_create_changeset
  split_ifs <;> simp [ran_trace_append, ran_trace]

theorem step_edit_changeset_ran (cfg : Config) (w : World) (s : S) :
    ran_trace ((step_edit_changeset cfg w s).1.trace) = ran_trace s.trace := by
  unfold step_edit_changeset
  split_ifs <;> simp [ran_trace_append, ran_trace]

theorem step_build_ran (cfg : Config) (w : World) (s : S) :
    ran_trace ((step_build cfg w s).1.trace) = ran_trace s.trace := by
  unfold step_build
  split_ifs <;> simp [ran_trace_append, ran_trace]

theorem step_version_ran (cfg : Config) (w : World) (s : S) :
    ran_trace ((step_version cfg w s).1.trace) = ran_trace s.trace := by
  unfold step_version
  split_ifs <;> simp [ran_trace_append, ran_trace]

theorem step_git_commit_ran (cfg : Config) (w : World) (s : S) :
    ran_trace ((step_git_commit cfg w s).1.trace) = ran_trace s.trace := by
  unfold step_git_commit
  split_ifs <;> simp [ran_trace_append, ran_trace]

theorem step_npm_publish_ran (cfg : Config) (w : World) (s : S) :
    ran_trace ((step_npm_publish cfg w s).1.trace) = ran_trace s.trace := by
  unfold step_npm_publish
  split_ifs <;> simp [ran_trace_append, ran_trace]

theorem step_git_push_ran (cfg : Config) (w : World) (s : S) :
    ran_trace ((step_git_push cfg w s).1.trace) = ran_trace s.trace := by
  unfold step_git_push
  split_ifs <;> simp [ran_trace_append, ran_trace]

theorem step_gh_release_ran (cfg : Config) (w : World) (s : S) :
    ran_trace ((step_gh_release cfg w s).1.trace) = ran_trace s.trace := by
  unfold step_gh_release
  split_ifs <;> simp [ran_trace_append, ran_trace]

theorem step_cleanup_ran (cfg : Config) (w : World) (s : S) :
    ran_trace ((step_cleanup cfg w s).1.trace) = ran_trace s.trace := by
  unfold step_cleanup
  split_ifs <;> simp [ran_trace_append, ran_trace]

theorem run_step_ran (cfg : Config) (w : World) (step : String) (s : S) :
    ran_trace ((run_step cfg w step s).1.trace) = ran_trace s.trace ++ [step] := by
  have hbase : ran_trace (s.trace ++ [Effect.ranStep step]) = ran_trace s.trace ++ [step] := by
    simp [ran_trace_append, ran_trace]
  simp only [run_step]
  by_cases h1 : step = "preflight"
  · rw [if_pos h1, step_preflight_ran]; exact hbase
  rw [if_neg h1]
  by_cases h2 : step = "init"
  · rw [if_pos h2, step_init_ran]; exact hbase
  rw [if_neg h2]
  by_cases h3 : step = "show_commits"
  · rw [if_pos h3, step_show_commits_ran]; exact hbase
  rw [if_neg h3]
  by_cases h4 : step = "create_changeset"
  · rw [if_pos h4, step_create_changeset_ran]; exact hbase
  rw [if_neg h4]
  by_cases h5 : step = "edit_changeset"
  · rw [if_pos h5, step_edit_changeset_ran]; exact hbase
  rw [if_neg h5]
  by_cases h6 : step = "build"
  · rw [if_pos h6, step_build_ran]; exact hbase
  rw [if_neg h6]
  by_cases h7 : step = "version"
  · rw [if_pos h7, step_version_ran]; exact hbase
  rw [if_neg h7]
  by_cases h8 : step = "git_commit"
  · rw [if_pos h8, step_git_commit_ran]; exact hbase
  rw [if_neg h8]
  by_cases h9 : step = "npm_publish"
  · rw [if_pos h9, step_npm_publish_ran]; exact hbase
  rw [if_neg h9]
  by_cases h10 : step = "git_push"
  · rw [if_pos h10, step_git_push_ran]; exact hbase
  rw [if_neg h10]
  by_cases h11 : step = "gh_release"
  · rw [if_pos h11, step_gh_release_ran]; exact hbase
  rw [if_neg h11]
  by_cases h12 : step = "cleanup"
  · rw [if_pos h12, step_cleanup_ran]; exact hbase
  rw [if_neg h12]
  exact hbase

theorem run_steps_ran (cfg : Config) (w : World) :
    ∀ (l : List String) (s : S), (run_steps cfg w l s).2 = none →
      ran_trace ((run_steps cfg w l s).1.trace) = ran_trace s.trace ++ l := by
  intro l
  induction l with
  | nil => intro s _; simp [run_steps]
  | cons a rest ih =>
    intro s h
    rcases hr : run_step cfg w a s with ⟨s1, code⟩
    have hruns : run_steps cfg w (a :: rest) s =
        match run_step cfg w a s with
        | (s1, some code) => (s1, some code)
        | (s1, none) => run_steps cfg w rest s1 := rfl
    rw [hruns, hr] at h ⊢
    cases code with
    | some c => simp at h
    | none =>
      have htr : ran_trace s1.trace = ran_trace s.trace ++ [a] := by
        have := run_step_ran cfg w a s
        rw [hr] at this
        exact this
      simp only [ih s1 h, htr, List.append_assoc, List.singleton_append]

theorem STEPS_length : STEPS.length = 12 := rfl

theorem get_step_index_getD : ∀ j : Nat, j < 12 → get_step_index (STEPS.getD j "") = (j : Int) := by
  decide

theorem get_step_index_not_mem (name : String) (h : name ∉ STEPS) :
    get_step_index name = -1 := by
  have h1 : ¬ "preflight" = name := fun e => h (e ▸ (by decide : "preflight" ∈ STEPS))
  have h2 : ¬ "init" = name := fun e => h (e ▸ (by decide : "init" ∈ STEPS))
  have h3 : ¬ "show_commits" = name := fun e => h (e ▸ (by decide : "show_commits" ∈ STEPS))
  have h4 : ¬ "create_changeset" = name := fun e => h (e ▸ (by decide : "create_changeset" ∈ STEPS))
  have h5 : ¬ "edit_changeset" = name := fun e => h (e ▸ (by decide : "edit_changeset" ∈ STEPS))
  have h6 : ¬ "build" = name := fun e => h (e ▸ (by decide : "build" ∈ STEPS))
  have h7 : ¬ "version" = name := fun e => h (e ▸ (by decide : "version" ∈ STEPS))
  have h8 : ¬ "git_commit" = name := fun e => h (e ▸ (by decide : "git_commit" ∈ STEPS))
  have h9 : ¬ "npm_publish" = name := fun e => h (e ▸ (by decide : "npm_publish" ∈ STEPS))
  have h10 : ¬ "git_push" = name := fun e => h (e ▸ (by decide : "git_push" ∈ STEPS))
  have h11 : ¬ "gh_release" = name := fun e => h (e ▸ (by decide : "gh_release" ∈ STEPS))
  have h12 : ¬ "cleanup" = name := fun e => h (e ▸ (by decide : "cleanup" ∈ STEPS))
  simp [get_step_index, STEPS, find_index_from, h1, h2, h3, h4, h5, h6, h7, h8, h9, h10,
    h11, h12]

/-! ### Claim theorems -/

/-- Claim C8: for every list of commit subjects, the bump-type classifier
returns `major` when some subject matches the breaking-change marker, else
`minor` when some subject matches a feature marker, else `patch`; in
particular for the single subject `feat: add export` it returns `minor`. -/
theorem c8_detect_bump_type (commits : List String) :
    (commits.any matches_breaking = true → detect_bump_type commits = "major") ∧
    (commits.any matches_breaking = false → commits.any matches_feature = true →
      detect_bump_type commits = "minor") ∧
    (commits.any matches_breaking = false → commits.any matches_feature = false →
      detect_bump_type commits = "patch") ∧
    detect_bump_type ["feat: add export"] = "minor" := by
  refine ⟨?_, ?_, ?_, by decide⟩
  · intro h; simp [detect_bump_type, h]
  · intro h1 h2; simp [detect_bump_type, h1, h2]
  · intro h1 h2; simp [detect_bump_type, h1, h2]

/-- Witness for C8 at the concrete Scenario A input. -/
theorem c8_witness :
    (["feat: add export"].any matches_breaking = false ∧
     ["feat: add export"].any matches_feature = true) ∧
    detect_bump_type ["feat: add export"] = "minor" :=
  ⟨⟨by decide, by decide⟩,
    (c8_detect_bump_type ["feat: add export"]).2.1 (by decide) (by decide)⟩

/-- Claim C10 (amended): for every prior state-store content, every key of the
fixed semantic key set and every value containing no newline character,
`save_state` followed by `get_state` returns exactly the written value
(colons included), and every other semantic key reads as before the write.
(The newline restriction is forced by `c10_counterexample`.) -/
theorem c10_save_get_roundtrip_frame (st : StFile) (k v k' : String)
    (hk : k ∈ semantic_keys) (hk' : k' ∈ semantic_keys) (hne : ¬ k' = k)
    (hv : '\n' ∉ v.data) :
    get_state (save_state st k v) k = v ∧
    get_state (save_state st k v) k' = get_state st k' := by
  have hprops : ∀ x ∈ semantic_keys, ':' ∉ x.data ∧ '\n' ∉ x.data := by decide
  obtain ⟨hkc, hknl⟩ := hprops k hk
  obtain ⟨hkc', _⟩ := hprops k' hk'
  exact ⟨get_save_same st k v hkc hknl hv,
    get_save_other st k v k' hkc hkc' hknl hv hne⟩

/-- Witness for C10 on a concrete store, key and colon-carrying value. -/
theorem c10_witness :
    get_state (save_state (some ["tag:v1.0.0"]) "changeset_file" "a:b.md") "changeset_file"
      = "a:b.md" ∧
    get_state (save_state (some ["tag:v1.0.0"]) "changeset_file" "a:b.md") "tag"
      = get_state (some ["tag:v1.0.0"]) "tag" :=
  c10_save_get_roundtrip_frame (some ["tag:v1.0.0"]) "changeset_file" "a:b.md" "tag"
    (by decide) (by decide) (by decide) (by decide)

/-- Counterexample for C10 as stated: writing the value `x` ++ newline ++
`version:evil` under `bump_type` is read back as just `x`, and it changes what
`get_state` returns for the other semantic key `version`. -/
theorem c10_counterexample :
    ¬ get_state (save_state (some []) "bump_type" "x\nversion:evil") "bump_type"
        = "x\nversion:evil" ∧
    ¬ get_state (save_state (some []) "bump_type" "x\nversion:evil") "version"
        = get_state (some []) "version" := by
  decide

/-- Claim C7: a live lock owner makes acquisition fail with exit 1 before any
state-store mutation (the driver returns the store untouched), while a
dead-owner lock is reclaimed: acquisition succeeds, warns about the stale
lock, and writes the current process id. -/
theorem c7_lock_acquisition (lock : Option String) (alive : List String)
    (selfPid : String) (cfg : Config) (w : World) (s : S) (owner : String)
    (hl : lock = some owner) :
    (owner ∈ alive →
      acquire_lock lock alive selfPid = LockResult.lockHeld owner ∧
      main_resume cfg w lock alive selfPid s = (s, some 1)) ∧
    (owner ∉ alive →
      acquire_lock lock alive selfPid = LockResult.acquired selfPid true) := by
  subst hl
  constructor
  · intro hmem
    constructor
    · simp [acquire_lock, hmem]
    · simp [main_resume, acquire_lock, hmem]
  · intro hmem
    simp [acquire_lock, hmem]

/-- Witness for C7: a live owner `99` blocks a second run and leaves the state
store untouched; a dead owner `7` is reclaimed by pid `100`. -/
theorem c7_witness :
    (acquire_lock (some "99") ["99"] "100" = LockResult.lockHeld "99" ∧
     main_resume sampleReal sampleWorld (some "99") ["99"] "100"
       ⟨some ["last_step:init"], []⟩ = (⟨some ["last_step:init"], []⟩, some 1)) ∧
    acquire_lock (some "7") ["99"] "100" = LockResult.acquired "100" true := by
  constructor
  · exact (c7_lock_acquisition (some "99") ["99"] "100" sampleReal sampleWorld
      ⟨some ["last_step:init"], []⟩ "99" rfl).1 (by decide)
  · exact (c7_lock_acquisition (some "7") ["99"] "100" sampleReal sampleWorld
      ⟨some ["last_step:init"], []⟩ "7" rfl).2 (by decide)

/-- Claim C6 (amended): on completion of the compensation chain the persisted
state is cleared whenever the run is not a dry run; under `--dry-run` the
state is left untouched.  (The dry-run exception is forced by
`c6_counterexample`.) -/
theorem c6_rollback_clears_state (cfg : Config) (w : World) (s : S)
    (h : cfg.dryRun = false) :
    (rollback cfg w s).1.st = none ∧ (rollback cfg w s).2 = none := by
  unfold rollback
  simp [h, clear_state]

/-- Witness for C6 on a concrete real-mode rollback. -/
theorem c6_witness :
    (rollback sampleReal sampleWorld
        ⟨some ["last_step:git_push", "tag:v1.2.3", "original_commit:abc"], []⟩).1.st = none ∧
    (rollback sampleReal sampleWorld
        ⟨some ["last_step:git_push", "tag:v1.2.3", "original_commit:abc"], []⟩).2 = none :=
  c6_rollback_clears_state sampleReal sampleWorld
    ⟨some ["last_step:git_push", "tag:v1.2.3", "original_commit:abc"], []⟩ rfl

/-- Counterexample for C6 as stated: a dry-run rollback finishes with the
persisted state still present (`$DRY_RUN || clear_state` skips the clear). -/
theorem c6_counterexample :
    ¬ (rollback sampleDry sampleWorld
        ⟨some ["last_step:git_push", "tag:v1.2.3", "original_commit:abc"], []⟩).1.st = none := by
  decide

/-- Claim C2: rollback invoked with `last_step = git_push` (outside dry-run,
with the recorded tag and original commit present) performs exactly, in order:
delete the remote tag, hard-reset to the recorded original commit, clear the
persisted state; the `gh_release` compensation is not in its chain; rollback
always runs exactly the compensation chain of `last_step`; and no chain ever
contains a compensation for a step strictly after its `last_step`. -/
theorem c2_rollback_git_push (cfg : Config) (w : World) (s : S) (t c : String)
    (hdry : cfg.dryRun = false)
    (hls : get_state s.st "last_step" = "git_push")
    (ht : get_state s.st "tag" = t) (ht0 : ¬ t = "")
    (hc : get_state s.st "original_commit" = c) (hc0 : ¬ c = "") :
    rollback cfg w s =
      ({ st := none,
         trace := s.trace ++ [Effect.deleteRemoteTagCmd t, Effect.gitResetHardCmd c] }, none) ∧
    rollback_comps "git_push" = [Comp.remote_tag, Comp.git_commit] ∧
    Comp.gh_release ∉ rollback_comps "git_push" ∧
    (∀ cfg2 w2 s2, (rollback cfg2 w2 s2).1 =
      (if cfg2.dryRun then
        apply_comps cfg2 w2 (rollback_comps (get_state s2.st "last_step")) s2
       else
        { apply_comps cfg2 w2 (rollback_comps (get_state s2.st "last_step")) s2
          with st := none })) ∧
    (∀ last comp, comp ∈ rollback_comps last → comp_step_index comp ≤ get_step_index last) := by
  refine ⟨?_, by decide, by decide, ?_, ?_⟩
  · simp +decide [rollback, hls, rollback_remote_tag, rollback_git_commit, ht, hc,
      ht0, hc0, hdry, clear_state]
  · intro cfg2 w2 s2
    have hbody :
        (if get_state s2.st "last_step" = "gh_release" then
          rollback_git_commit cfg2 w2 (rollback_remote_tag cfg2 w2 (rollback_gh_release cfg2 w2 s2))
        else if get_state s2.st "last_step" = "git_push" then
          rollback_git_commit cfg2 w2 (rollback_remote_tag cfg2 w2 s2)
        else if get_state s2.st "last_step" = "npm_publish" then
          rollback_git_commit cfg2 w2 (npm_unpublish_note cfg2 w2 s2)
        else if get_state s2.st "last_step" = "git_commit" ∨ get_state s2.st "last_step" = "version" then
          rollback_git_commit cfg2 w2 s2
        else if get_state s2.st "last_step" = "create_changeset" ∨ get_state s2.st "last_step" = "edit_changeset" then
          rollback_changeset cfg2 w2 s2
        else s2) =
        apply_comps cfg2 w2 (rollback_comps (get_state s2.st "last_step")) s2 := by
      unfold rollback_comps
      split_ifs <;> simp [apply_comps, run_comp]
    unfold rollback
    dsimp only
    rw [hbody]
    split_ifs with hd <;> simp [clear_state]
  · intro last comp hmem
    unfold rollback_comps at hmem
    split_ifs at hmem with hA hB hC hD hE
    · subst hA
      rcases List.mem_cons.mp hmem with h | h
      · subst h; decide
      rcases List.mem_cons.mp h with h | h
      · subst h; decide
      rcases List.mem_cons.mp h with h | h
      · subst h; decide
      · exact absurd h (List.not_mem_nil _)
    · subst hB
      rcases List.mem_cons.mp hmem with h | h
      · subst h; decide
      rcases List.mem_cons.mp h with h | h
      · subst h; decide
      · exact absurd h (List.not_mem_nil _)
    · subst hC
      rcases List.mem_cons.mp hmem with h | h
      · subst h; decide
      rcases List.mem_cons.mp h with h | h
      · subst h; decide
      · exact absurd h (List.not_mem_nil _)
    · rcases List.mem_cons.mp hmem with h | h
      · subst h
        rcases hD with h | h <;> (subst h; decide)
      · exact absurd h (List.not_mem_nil _)
    · rcases List.mem_cons.mp hmem with h | h
      · subst h
        rcases hE with h | h <;> (subst h; decide)
      · exact absurd h (List.not_mem_nil _)
    · exact absurd hmem (List.not_mem_nil _)

/-- Witness for C2 on a concrete `git_push` rollback. -/
theorem c2_witness :
    rollback sampleReal sampleWorld
        ⟨some ["last_step:git_push", "tag:v1.2.3", "original_commit:abc"], []⟩ =
      ({ st := none,
         trace := [Effect.deleteRemoteTagCmd "v1.2.3", Effect.gitResetHardCmd "abc"] }, none) := by
  have h := (c2_rollback_git_push sampleReal sampleWorld
    ⟨some ["last_step:git_push", "tag:v1.2.3", "original_commit:abc"], []⟩
    "v1.2.3" "abc" rfl (by decide) (by decide) (by decide) (by decide) (by decide)).1
  simpa using h

/-- Claim C9: invoking the pipeline with a name outside the step registry,
through `run_step` (`--step`) or `run_from_step` (`--from`), exits 1 before
executing any step action and leaves the state store exactly as it was (the
only trace entry is the dispatch instrumentation). -/
theorem c9_unknown_step (cfg : Config) (w : World) (s : S) (name : String)
    (h : name ∉ STEPS) :
    run_step cfg w name s = ({ s with trace := s.trace ++ [Effect.ranStep name] }, some 1) ∧
    run_from_step cfg w name s = (s, some 1) := by
  have h1 : ¬ name = "preflight" := fun e => h (by rw [e]; decide)
  have h2 : ¬ name = "init" := fun e => h (by rw [e]; decide)
  have h3 : ¬ name = "show_commits" := fun e => h (by rw [e]; decide)
  have h4 : ¬ name = "create_changeset" := fun e => h (by rw [e]; decide)
  have h5 : ¬ name = "edit_changeset" := fun e => h (by rw [e]; decide)
  have h6 : ¬ name = "build" := fun e => h (by rw [e]; decide)
  have h7 : ¬ name = "version" := fun e => h (by rw [e]; decide)
  have h8 : ¬ name = "git_commit" := fun e => h (by rw [e]; decide)
  have h9 : ¬ name = "npm_publish" := fun e => h (by rw [e]; decide)
  have h10 : ¬ name = "git_push" := fun e => h (by rw [e]; decide)
  have h11 : ¬ name = "gh_release" := fun e => h (by rw [e]; decide)
  have h12 : ¬ name = "cleanup" := fun e => h (by rw [e]; decide)
  constructor
  · simp only [run_step]
    rw [if_neg h1, if_neg h2, if_neg h3, if_neg h4, if_neg h5, if_neg h6, if_neg h7,
      if_neg h8, if_neg h9, if_neg h10, if_neg h11, if_neg h12]
  · unfold run_from_step
    rw [get_step_index_not_mem name h]
    simp

/-- Witness for C9 at the unregistered name `bogus`. -/
theorem c9_witness :
    run_step sampleReal sampleWorld "bogus" ⟨some ["last_step:init"], []⟩ =
      (⟨some ["last_step:init"], [Effect.ranStep "bogus"]⟩, some 1) ∧
    run_from_step sampleReal sampleWorld "bogus" ⟨some ["last_step:init"], []⟩ =
      (⟨some ["last_step:init"], []⟩, some 1) := by
  have h := c9_unknown_step sampleReal sampleWorld ⟨some ["last_step:init"], []⟩ "bogus"
    (by decide)
  simpa using h

/-- Claim C3 (amended): for every step other than `version` that is already in
`completed_steps` and whose verification predicate passes, executing it through
the pipeline dispatcher is log-only: the persisted state (values,
`completed_steps`, `last_step`) is returned unchanged, no action effect is
performed, and the step reports success.  (`version` must be excluded: its
skip path rewrites the `version` and `tag` keys — see `c3_counterexample`.) -/
theorem c3_verified_skip_no_mutation (cfg : Config) (w : World) (s : S) (name : String)
    (hmem : name ∈ STEPS) (hnv : ¬ name = "version")
    (hdone : is_step_done s.st name = true)
    (hver : step_verify name w s.st = true) :
    run_step cfg w name s = ({ s with trace := s.trace ++ [Effect.ranStep name] }, none) := by
  have hcases : name = "preflight" ∨ name = "init" ∨ name = "show_commits" ∨
      name = "create_changeset" ∨ name = "edit_changeset" ∨ name = "build" ∨
      name = "version" ∨ name = "git_commit" ∨ name = "npm_publish" ∨
      name = "git_push" ∨ name = "gh_release" ∨ name = "cleanup" := by
    simpa [STEPS] using hmem
  rcases hcases with h | h | h | h | h | h | h | h | h | h | h | h
  · subst h; simp +decide [run_step, step_preflight, hdone]
  · subst h
    have hv : verify_init w s.st = true := by simpa +decide [step_verify] using hver
    simp +decide [run_step, step_init, hdone, hv]
  · subst h
    have hv : verify_show_commits w s.st = true := by simpa +decide [step_verify] using hver
    simp +decide [run_step, step_show_commits, hdone, hv]
  · subst h
    have hv : verify_create_changeset w s.st = true := by simpa +decide [step_verify] using hver
    simp +decide [run_step, step_create_changeset, hdone, hv]
  · subst h; simp +decide [run_step, step_edit_changeset, hdone]
  · subst h
    have hv : verify_build w s.st = true := by simpa +decide [step_verify] using hver
    simp +decide [run_step, step_build, hdone, hv]
  · exact absurd h hnv
  · subst h
    have hv : verify_git_commit w s.st = true := by simpa +decide [step_verify] using hver
    simp +decide [run_step, step_git_commit, hdone, hv]
  · subst h
    have hv : verify_npm_publish w s.st = true := by simpa +decide [step_verify] using hver
    simp +decide [run_step, step_npm_publish, hdone, hv]
  · subst h
    have hv : verify_git_push w s.st = true := by simpa +decide [step_verify] using hver
    simp +decide [run_step, step_git_push, hdone, hv]
  · subst h
    have hv : verify_gh_release w s.st = true := by simpa +decide [step_verify] using hver
    simp +decide [run_step, step_gh_release, hdone, hv]
  · subst h
    have hv : verify_cleanup w s.st = true := by simpa +decide [step_verify] using hver
    have hst : s.st = none := by
      unfold verify_cleanup has_state at hv
      simpa [Option.not_isSome_iff_eq_none] using hv
    rw [hst] at hdone
    exact absurd hdone (by decide)

/-- Witness for C3: a completed and verified `build` step is skipped without
touching the state. -/
theorem c3_witness :
    run_step sampleReal { sampleWorld with distExists := true } "build"
        ⟨some ["completed_steps:build", "last_step:build"], []⟩ =
      (⟨some ["completed_steps:build", "last_step:build"], [Effect.ranStep "build"]⟩, none) := by
  have h := c3_verified_skip_no_mutation sampleReal { sampleWorld with distExists := true }
    ⟨some ["completed_steps:build", "last_step:build"], []⟩ "build" (by decide) (by decide)
    (by decide) (by decide)
  simpa using h

/-- Counterexample for C3 as stated: the `version` step, completed and with its
verification passing, still mutates the store on its skip path — it rewrites
the `version` key (placeholder `X.X.X`) to the manifest version `1.0.0`. -/
theorem c3_counterexample :
    is_step_done (some ["completed_steps:version", "version:X.X.X"]) "version" = true ∧
    step_verify "version" sampleWorld (some ["completed_steps:version", "version:X.X.X"]) = true ∧
    get_state (some ["completed_steps:version", "version:X.X.X"]) "version" = "X.X.X" ∧
    get_state (run_step sampleReal sampleWorld "version"
        ⟨some ["completed_steps:version", "version:X.X.X"], []⟩).1.st "version" = "1.0.0" ∧
    ¬ (run_step sampleReal sampleWorld "version"
        ⟨some ["completed_steps:version", "version:X.X.X"], []⟩).1.st
      = some ["completed_steps:version", "version:X.X.X"] := by
  decide

/-- Claim C4 (amended): `run_step` dispatches unconditionally, but the step
implementations keep their skip discipline; in particular `preflight`, invoked
directly while its completion flag is recorded, is skipped on that flag alone —
its checks are not re-executed and nothing changes. -/
theorem c4_preflight_completion_flag_skips (cfg : Config) (w : World) (s : S)
    (hdone : is_step_done s.st "preflight" = true) :
    run_step cfg w "preflight" s =
      ({ s with trace := s.trace ++ [Effect.ranStep "preflight"] }, none) := by
  simp +decide [run_step, step_preflight, hdone]

/-- Witness for C4 on a concrete store with the `preflight` flag recorded. -/
theorem c4_witness :
    run_step sampleDry sampleWorld "preflight" ⟨some ["completed_steps:preflight"], []⟩ =
      (⟨some ["completed_steps:preflight"], [Effect.ranStep "preflight"]⟩, none) := by
  have h := c4_preflight_completion_flag_skips sampleDry sampleWorld
    ⟨some ["completed_steps:preflight"], []⟩ (by decide)
  simpa using h

/-- Counterexample for C4 as stated: with npm login missing, a direct
`--step preflight` on a fresh store exits 1 (the checks run and fail), but with
the completion flag recorded the same invocation succeeds without running any
check and without touching the store — the flag does cause a skip. -/
theorem c4_counterexample :
    (run_step sampleReal { sampleWorld with npmLoggedIn := false } "preflight"
        ⟨some ["completed_steps:preflight", "last_step:preflight"], []⟩).2 = none ∧
    (run_step sampleReal { sampleWorld with npmLoggedIn := false } "preflight"
        ⟨some ["completed_steps:preflight", "last_step:preflight"], []⟩).1.st
      = some ["completed_steps:preflight", "last_step:preflight"] ∧
    (run_step sampleReal { sampleWorld with npmLoggedIn := false } "preflight"
        ⟨none, []⟩).2 = some 1 := by
  decide

/-- Claim C5 (amended): `mark_step_done` appends unconditionally, so
re-executing a step that is already recorded (as happens when its verification
fails) appends a second occurrence of its name to `completed_steps`;
the record is duplicate-free only along runs that never re-execute a completed
step. -/
theorem c5_mark_step_done_appends (st : StFile) (step d : String)
    (hd : get_state st "completed_steps" = d) (hne : ¬ d = "")
    (hdnl : '\n' ∉ d.data) (hsnl : '\n' ∉ step.data) :
    get_state (mark_step_done st step) "completed_steps" = d ++ "," ++ step := by
  have hvnl : '\n' ∉ (d ++ "," ++ step).data := by
    rw [String.data_append, String.data_append]
    intro hm
    rcases List.mem_append.mp hm with hm1 | hm2
    · rcases List.mem_append.mp hm1 with hm3 | hm4
      · exact hdnl hm3
      · exact absurd hm4 (by decide)
    · exact hsnl hm2
  unfold mark_step_done
  dsimp only
  rw [hd, if_neg hne]
  rw [get_save_other _ "last_step" step "completed_steps" (by decide) (by decide)
    (by decide) hsnl (by decide)]
  exact get_save_same st "completed_steps" (d ++ "," ++ step) (by decide) (by decide) hvnl

/-- Witness for C5: re-marking the already recorded `build` step appends a
duplicate. -/
theorem c5_witness :
    get_state (mark_step_done (some ["completed_steps:preflight,build", "last_step:build"])
        "build") "completed_steps" = "preflight,build,build" := by
  have h := c5_mark_step_done_appends (some ["completed_steps:preflight,build", "last_step:build"])
    "build" "preflight,build" (by decide) (by decide) (by decide) (by decide)
  exact h.trans (by decide)

set_option maxRecDepth 8000 in
/-- Counterexample for C5 as stated: a dry run of the whole pipeline followed
by a real `--step create_changeset` (whose verification fails because the dry
run never created the file) reaches a state whose `completed_steps` lists
`create_changeset` twice. -/
theorem c5_counterexample :
    (List.splitOn ','
        (get_state (run_step sampleReal sampleWorld "create_changeset"
          (resume sampleDry sampleWorld ⟨none, []⟩).1).1.st "completed_steps").data).count
      "create_changeset".data = 2 := by
  decide

/-- Claim C1: `resume` with no persisted state behaves identically to
`run_from_step "preflight"`; otherwise, with `nextIndex = index(last_step) + 1`,
when `nextIndex` is at or past the end of the 12-step pipeline it clears the
state and reports success without running any step (trace untouched), and
otherwise it behaves identically to `run_from_step` at the step of index
`nextIndex`, which (when no step exits) dispatches exactly the steps from
`nextIndex` to the end, in order. -/
theorem c1_resume_dispatch (cfg : Config) (w : World) (s : S) :
    (s.st = none → resume cfg w s = run_from_step cfg w "preflight" s) ∧
    (∀ i : Nat, ¬ s.st = none →
      get_step_index (get_state s.st "last_step") = (i : Int) →
      ((STEPS.length ≤ i + 1 →
          resume cfg w s = ({ s with st := none }, none)) ∧
       (i + 1 < STEPS.length →
          resume cfg w s = run_from_step cfg w (STEPS.getD (i + 1) "") s ∧
          get_step_index (STEPS.getD (i + 1) "") = ((i : Int) + 1) ∧
          ((run_from_step cfg w (STEPS.getD (i + 1) "") s).2 = none →
            ran_trace (run_from_step cfg w (STEPS.getD (i + 1) "") s).1.trace =
              ran_trace s.trace ++ STEPS.drop (i + 1))))) := by
  constructor
  · intro h
    unfold resume
    rw [h]
    simp [has_state]
  · intro i hsome hidx
    have hhas : has_state s.st = true := by
      rcases hst : s.st with _ | f
      · exact absurd hst hsome
      · rfl
    constructor
    · intro hge
      have hgeInt : (STEPS.length : Int) ≤ (i : Int) + 1 := by exact_mod_cast hge
      unfold resume
      rw [hhas]
      dsimp only
      rw [hidx, if_pos hgeInt]
      simp [clear_state]
    · intro hlt
      have hltInt : ¬ (STEPS.length : Int) ≤ (i : Int) + 1 := by
        have h2 : ¬ STEPS.length ≤ i + 1 := Nat.not_le.mpr hlt
        exact_mod_cast h2
      have htn : ((i : Int) + 1).toNat = i + 1 := by omega
      have hgetD : get_step_index (STEPS.getD (i + 1) "") = (i : Int) + 1 := by
        have h12 : i + 1 < 12 := by
          have := STEPS_length
          omega
        have := get_step_index_getD (i + 1) h12
        exact_mod_cast this
      have hresume : resume cfg w s = run_from_step cfg w (STEPS.getD (i + 1) "") s := by
        unfold resume
        rw [hhas]
        dsimp only
        rw [hidx, if_neg hltInt, htn]
        simp
      have hrfs : run_from_step cfg w (STEPS.getD (i + 1) "") s =
          run_steps cfg w (STEPS.drop (i + 1)) s := by
        unfold run_from_step
        rw [hgetD]
        dsimp only
        rw [if_neg (by omega), htn]
      refine ⟨hresume, hgetD, ?_⟩
      intro hex
      rw [hrfs] at hex ⊢
      exact run_steps_ran cfg w _ s hex

/-- Witness for C1: on an absent store resume equals a preflight start, and on
a store whose `last_step` is the final step `cleanup` it clears the state and
reports success without dispatching anything. -/
theorem c1_witness :
    resume sampleReal sampleWorld ⟨none, []⟩ =
      run_from_step sampleReal sampleWorld "preflight" ⟨none, []⟩ ∧
    resume sampleReal sampleWorld ⟨some ["last_step:cleanup"], []⟩ = (⟨none, []⟩, none) := by
  constructor
  · exact (c1_resume_dispatch sampleReal sampleWorld ⟨none, []⟩).1 rfl
  · have h := ((c1_resume_dispatch sampleReal sampleWorld
      ⟨some ["last_step:cleanup"], []⟩).2 11 (by decide) (by decide)).1 (by decide)
    simpa using h

end Release
